import Mathlib

/-
Verification development for the plugin rack of SLURM 0.2.5.1
(src/common/plugrack.c).  The C code is shallowly embedded below:

  * filesystem metadata (struct stat) is a value of type StatInfo and the
    filesystem itself a function Fs from path strings to Option StatInfo
    (none models a failing stat call);
  * the dynamic-module loader plugin_load_from_file is a function Loader
    from paths to handles, and plugin_peek a function Peek from paths to
    Option String (none models SLURM_ERROR from the peek);
  * SLURM_SUCCESS / SLURM_ERROR are the booleans true / false;
  * refcount is Int, matching the C int field;
  * null-pointer guards of the C API are not represented, since racks and
    paths are values here;
  * functions that call plugin_peek additionally return the list of paths
    passed to plugin_peek, so that call ordering facts are statable.

Each definition mirrors one C function of plugrack.c and keeps its name.
-/

/-- The stat metadata the validator inspects: st_uid, the S_IWGRP and
S_IWOTH bits of st_mode, and the S_ISREG test. -/
structure StatInfo where
  st_uid : Nat
  grp_writable : Bool
  oth_writable : Bool
  is_reg : Bool
deriving DecidableEq, Repr

abbrev Fs := String → Option StatInfo

/-- plugin_handle_t: PLUGIN_INVALID_HANDLE is the sentinel that also
represents the not-loaded state in a rack entry. -/
inductive PluginHandle where
  | invalid
  | valid (id : Nat)
deriving DecidableEq, Repr

abbrev Loader := String → PluginHandle

abbrev Peek := String → Option String

/-- The PLUGRACK_PARANOIA_* bit flags of the paranoia bitmask. -/
structure Paranoia where
  file_own : Bool
  file_writable : Bool
  dir_own : Bool
  dir_writable : Bool
deriving DecidableEq, Repr

/-- Test of the C expression `! rack->paranoia`: no bit is set. -/
def Paranoia.isZero (p : Paranoia) : Bool :=
  !p.file_own && !p.file_writable && !p.dir_own && !p.dir_writable

def PLUGRACK_PARANOIA_NONE : Paranoia := ⟨false, false, false, false⟩

/-- plugrack_entry_t: full_type, fq_path, plug, refcount. -/
structure PlugrackEntry where
  full_type : String
  fq_path : String
  plug : PluginHandle
  refcount : Int
deriving DecidableEq, Repr

/-- struct _plugrack: entries, major_type (NULL modeled as none), uid,
paranoia. -/
structure Plugrack where
  entries : List PlugrackEntry
  major_type : Option String
  uid : Nat
  paranoia : Paranoia
deriving DecidableEq, Repr

/-- PLUGRACK_UID_NOBODY, the uid installed by plugrack_create. -/
def PLUGRACK_UID_NOBODY : Nat := 99

/-- plugrack_create: empty list, no major type, nobody uid, no paranoia. -/
def plugrack_create : Plugrack :=
  ⟨[], none, PLUGRACK_UID_NOBODY, PLUGRACK_PARANOIA_NONE⟩

/-- accept_path_paranoia: stat the node; with the owner switch on, reject a
node not owned by the rack uid; with the writability switch on, reject a
group- or other-writable node. -/
def accept_path_paranoia (fs : Fs) (uid : Nat) (fq_path : String)
    (check_own check_write : Bool) : Bool :=
  match fs fq_path with
  | none => false
  | some st =>
    if check_own && (st.st_uid != uid) then false
    else if check_write && (st.grp_writable || st.oth_writable) then false
    else true

/-- Index of the last occurrence of a character in a character list
(the strrchr scan over the local path copy). -/
def lastIdxOf (c : Char) : List Char → Option Nat
  | [] => none
  | a :: as =>
    match lastIdxOf c as with
    | some i => some (i + 1)
    | none => if a = c then some 0 else none

/-- The directory-name derivation of accept_paranoia: strrchr for the last
slash; none when the path has no slash; when the last slash is the leading
character the C code skips the truncation and keeps the whole string. -/
def dirOfPath (path : String) : Option String :=
  match lastIdxOf '/' path.data with
  | none => none
  | some 0 => some path
  | some i => some (String.mk (path.data.take i))

/-- accept_paranoia: trivial accept on an all-zero paranoia mask, then the
file-level check with the FILE flags, then the directory derived from the
path (reject when there is no separator) checked with the DIR flags. -/
def accept_paranoia (fs : Fs) (rack : Plugrack) (fq_path : String) : Bool :=
  if rack.paranoia.isZero then true
  else if accept_path_paranoia fs rack.uid fq_path
      rack.paranoia.file_own rack.paranoia.file_writable = false then false
  else
    match dirOfPath fq_path with
    | none => false
    | some d =>
      accept_path_paranoia fs rack.uid d
        rack.paranoia.dir_own rack.paranoia.dir_writable

/-- The strncmp( m, t, strlen( m ) ) == 0 comparison used for the
major-type test: the first strlen(m) characters of t agree with m, t being
treated as a NUL-terminated string that may end early. -/
def strncmp_eq : List Char → List Char → Bool
  | [], _ => true
  | _ :: _, [] => false
  | a :: as, b :: bs => a = b && strncmp_eq as bs

/-- plugrack_add_plugin_path: append a fresh unloaded entry with zero
refcount; always returns SLURM_SUCCESS here (allocation cannot fail in the
model). -/
def plugrack_add_plugin_path (rack : Plugrack) (full_type fq_path : String) :
    Plugrack × Bool :=
  ({ rack with
      entries := rack.entries ++ [⟨full_type, fq_path, PluginHandle.invalid, 0⟩] },
   true)

/-- plugrack_add_plugin_file: paranoia check first, then plugin_peek, then
the major-type test, then append.  The third component records the paths
passed to plugin_peek. -/
def plugrack_add_plugin_file (fs : Fs) (peek : Peek) (rack : Plugrack)
    (fq_path : String) : Plugrack × Bool × List String :=
  if accept_paranoia fs rack fq_path = false then (rack, false, [])
  else
    match peek fq_path with
    | none => (rack, false, [fq_path])
    | some t =>
      match rack.major_type with
      | some m =>
        if strncmp_eq m.data t.data = false then (rack, false, [fq_path])
        else ((plugrack_add_plugin_path rack t fq_path).1,
              (plugrack_add_plugin_path rack t fq_path).2, [fq_path])
      | none => ((plugrack_add_plugin_path rack t fq_path).1,
                 (plugrack_add_plugin_path rack t fq_path).2, [fq_path])

/-- One iteration of the plugrack_read_dir loop for a directory entry
named name: stat the composed path, skip non-regular files, run the
per-file paranoia check -- the C code passes dir, not the composed file
path, to this check -- then plugin_peek and the major-type test, then
append.  The second component records the paths passed to plugin_peek. -/
def read_dir_entry (fs : Fs) (peek : Peek) (rack : Plugrack)
    (dir name : String) : Plugrack × List String :=
  match fs (dir ++ "/" ++ name) with
  | none => (rack, [])
  | some st =>
    if !st.is_reg then (rack, [])
    else if accept_path_paranoia fs rack.uid dir
        rack.paranoia.file_own rack.paranoia.file_writable = false then
      (rack, [])
    else
      match peek (dir ++ "/" ++ name) with
      | none => (rack, [dir ++ "/" ++ name])
      | some t =>
        match rack.major_type with
        | some m =>
          if strncmp_eq m.data t.data = false then (rack, [dir ++ "/" ++ name])
          else ((plugrack_add_plugin_path rack t (dir ++ "/" ++ name)).1,
                [dir ++ "/" ++ name])
        | none => ((plugrack_add_plugin_path rack t (dir ++ "/" ++ name)).1,
                   [dir ++ "/" ++ name])

/-- The readdir loop of plugrack_read_dir over the listed names. -/
def plugrack_read_dir_loop (fs : Fs) (peek : Peek) (dir : String) :
    List String → Plugrack → Plugrack × List String
  | [], rack => (rack, [])
  | name :: names, rack =>
    ((plugrack_read_dir_loop fs peek dir names
        (read_dir_entry fs peek rack dir name).1).1,
     (read_dir_entry fs peek rack dir name).2 ++
       (plugrack_read_dir_loop fs peek dir names
         (read_dir_entry fs peek rack dir name).1).2)

/-- plugrack_read_dir: the directory itself is checked with the DIR flags
first (fatal on failure), then every readdir name is processed; names
models the readdir enumeration of a successfully opened directory.  The
third component records the paths passed to plugin_peek. -/
def plugrack_read_dir (fs : Fs) (peek : Peek) (rack : Plugrack)
    (dir : String) (names : List String) : Plugrack × Bool × List String :=
  if accept_path_paranoia fs rack.uid dir
      rack.paranoia.dir_own rack.paranoia.dir_writable = false then
    (rack, false, [])
  else
    ((plugrack_read_dir_loop fs peek dir names rack).1, true,
     (plugrack_read_dir_loop fs peek dir names rack).2)

/-- Lines 575-577 of plugrack_use_by_type: load the entry when its handle
is the invalid sentinel. -/
def use_update (load : Loader) (e : PlugrackEntry) : PlugrackEntry :=
  if e.plug = PluginHandle.invalid then { e with plug := load e.fq_path }
  else e

/-- Lines 579-581 of plugrack_use_by_type, kept exactly as written in the
C: the refcount is incremented when the handle equals the invalid sentinel
after the load attempt. -/
def use_bump (e : PlugrackEntry) : PlugrackEntry :=
  if e.plug = PluginHandle.invalid then { e with refcount := e.refcount + 1 }
  else e

/-- The iterator loop of plugrack_use_by_type: find the first entry whose
full_type compares equal, apply the load and increment steps to it, and
return its handle; return the invalid sentinel when no entry matches. -/
def use_loop (load : Loader) (full_type : String) :
    List PlugrackEntry → List PlugrackEntry × PluginHandle
  | [] => ([], PluginHandle.invalid)
  | e :: es =>
    if e.full_type = full_type then
      (use_bump (use_update load e) :: es, (use_bump (use_update load e)).plug)
    else
      (e :: (use_loop load full_type es).1, (use_loop load full_type es).2)

/-- plugrack_use_by_type. -/
def plugrack_use_by_type (load : Loader) (rack : Plugrack)
    (full_type : String) : Plugrack × PluginHandle :=
  ({ rack with entries := (use_loop load full_type rack.entries).1 },
   (use_loop load full_type rack.entries).2)

/-- The iterator loop of plugrack_finished_with_plugin: find the first
entry whose handle equals the argument, decrement its refcount and clamp a
negative result to zero; none when no entry matches. -/
def fin_loop (plug : PluginHandle) :
    List PlugrackEntry → Option (List PlugrackEntry)
  | [] => none
  | e :: es =>
    if e.plug = plug then
      some ({ e with refcount :=
                if e.refcount - 1 < 0 then 0 else e.refcount - 1 } :: es)
    else
      (fin_loop plug es).map (e :: ·)

/-- plugrack_finished_with_plugin: SLURM_ERROR when no entry carries the
handle. -/
def plugrack_finished_with_plugin (rack : Plugrack) (plug : PluginHandle) :
    Plugrack × Bool :=
  match fin_loop plug rack.entries with
  | none => (rack, false)
  | some es => ({ rack with entries := es }, true)

/-- The per-entry action of plugrack_purge_idle: unload a loaded entry with
zero refcount by resetting its handle to the invalid sentinel. -/
def purge_entry (e : PlugrackEntry) : PlugrackEntry :=
  if e.plug ≠ PluginHandle.invalid ∧ e.refcount = 0 then
    { e with plug := PluginHandle.invalid }
  else e

/-- plugrack_purge_idle. -/
def plugrack_purge_idle (rack : Plugrack) : Plugrack × Bool :=
  ({ rack with entries := rack.entries.map purge_entry }, true)

/-- The per-entry action of plugrack_load_all, kept exactly as written in
the C: plugin_load_from_file is invoked for an unloaded entry but its
result is cast to void and discarded -- the entry is not updated. -/
def load_all_entry (load : Loader) (e : PlugrackEntry) : PlugrackEntry :=
  if e.plug = PluginHandle.invalid then
    let _ := load e.fq_path
    e
  else e

/-- plugrack_load_all. -/
def plugrack_load_all (load : Loader) (rack : Plugrack) : Plugrack × Bool :=
  ({ rack with entries := rack.entries.map (load_all_entry load) }, true)

/-- plugrack_destroy: SLURM_ERROR, with the rack untouched, while any entry
has a positive refcount; otherwise every entry is destroyed. -/
def plugrack_destroy (rack : Plugrack) : Plugrack × Bool :=
  if rack.entries.any (fun e => decide (0 < e.refcount)) then (rack, false)
  else ({ rack with entries := [] }, true)

/-- plugrack_set_major_type. -/
def plugrack_set_major_type (rack : Plugrack) (t : String) : Plugrack × Bool :=
  ({ rack with major_type := some t }, true)

/-- plugrack_set_paranoia: the uid is installed only when the flag mask is
nonzero. -/
def plugrack_set_paranoia (rack : Plugrack) (flags : Paranoia) (uid : Nat) :
    Plugrack × Bool :=
  ({ { rack with paranoia := flags } with
      uid := if flags.isZero then rack.uid else uid }, true)

/-- One public operation of the rack API, carrying the external
collaborators (filesystem, peek, loader) it consumes. -/
inductive Op where
  | register_file (fs : Fs) (peek : Peek) (fq_path : String)
  | read_dir (fs : Fs) (peek : Peek) (dir : String) (names : List String)
  | use_by_type (load : Loader) (full_type : String)
  | finished (plug : PluginHandle)
  | purge_idle
  | load_all (load : Loader)
  | set_major_type (t : String)
  | set_paranoia (flags : Paranoia) (uid : Nat)
  | destroy

/-- The rack state after one public operation. -/
def applyOp (rack : Plugrack) : Op → Plugrack
  | .register_file fs peek p => (plugrack_add_plugin_file fs peek rack p).1
  | .read_dir fs peek d names => (plugrack_read_dir fs peek rack d names).1
  | .use_by_type load t => (plugrack_use_by_type load rack t).1
  | .finished plug => (plugrack_finished_with_plugin rack plug).1
  | .purge_idle => (plugrack_purge_idle rack).1
  | .load_all load => (plugrack_load_all load rack).1
  | .set_major_type t => (plugrack_set_major_type rack t).1
  | .set_paranoia flags uid => (plugrack_set_paranoia rack flags uid).1
  | .destroy => (plugrack_destroy rack).1

/-- The rack state reached from plugrack_create by a sequence of public
operations. -/
def runOps (ops : List Op) : Plugrack :=
  ops.foldl applyOp plugrack_create

/-- The per-node decision as the specification words it, in the order the
specification gives the rules: accept unconditionally when both switches
are off; reject when the node cannot be statted; with the owner switch on,
reject unless the owning user is the authorized uid; with the writability
switch on, reject a group- or other-writable node. -/
def claimed_path_decision (fs : Fs) (uid : Nat) (path : String)
    (check_own check_write : Bool) : Bool :=
  if !check_own && !check_write then true
  else
    match fs path with
    | none => false
    | some st =>
      if check_own && (st.st_uid != uid) then false
      else if check_write && (st.grp_writable || st.oth_writable) then false
      else true

/-- The per-node decision with the stat moved first: a node that cannot be
statted is rejected even when both switches are off; otherwise both
switches off accept, the owner switch rejects a node not owned by the
authorized uid, and the writability switch rejects a group- or
other-writable node. -/
def amended_path_decision (fs : Fs) (uid : Nat) (path : String)
    (check_own check_write : Bool) : Bool :=
  match fs path with
  | none => false
  | some st =>
    if !check_own && !check_write then true
    else if check_own && (st.st_uid != uid) then false
    else if check_write && (st.grp_writable || st.oth_writable) then false
    else true

/-- The namespace filter as the specification words it: the required
namespace is unset, or it is a plain string prefix of the declared type,
with no delimiter required after the prefix. -/
def ns_accepts (major : Option String) (t : String) : Prop :=
  major = none ∨ ∃ m s, major = some m ∧ t.data = m.data ++ s

/-- A filesystem on which every stat call fails. -/
def fsNone : Fs := fun _ => none

/-- A loader whose every load attempt fails. -/
def loadFail : Loader := fun _ => PluginHandle.invalid

/-- A loader whose every load attempt succeeds with handle 1. -/
def loadOk : Loader := fun _ => PluginHandle.valid 1

/-- A peek that reports type auth/x for the module at /lib/a.so. -/
def peekA : Peek := fun p => if p = "/lib/a.so" then some "auth/x" else none

/-- A rack holding one registered, unloaded auth/x entry. -/
def rack0 : Plugrack :=
  ⟨[⟨"auth/x", "/lib/a.so", PluginHandle.invalid, 0⟩], none,
   PLUGRACK_UID_NOBODY, PLUGRACK_PARANOIA_NONE⟩

/-- A filesystem with a clean directory /d that contains a group-writable
regular file /d/evil.so, both owned by uid 500. -/
def fs1 : Fs := fun p =>
  if p = "/d" then some ⟨500, false, false, false⟩
  else if p = "/d/evil.so" then some ⟨500, true, false, true⟩
  else none

/-- A peek that reports type auth/x for the module at /d/evil.so. -/
def peek1 : Peek := fun p => if p = "/d/evil.so" then some "auth/x" else none

/-- An empty rack whose paranoia policy enables only the file-writability
check, with authorized uid 500. -/
def rack1 : Plugrack := ⟨[], none, 500, ⟨false, true, false, false⟩⟩

/-- An empty rack that requires major type auth, with no paranoia. -/
def rack2 : Plugrack := ⟨[], some "auth", PLUGRACK_UID_NOBODY, PLUGRACK_PARANOIA_NONE⟩

/-- A peek that reports the delimiterless type authxyz at /p/a.so. -/
def peek2 : Peek := fun p => if p = "/p/a.so" then some "authxyz" else none

/-- A rack with one loaded entry still held by two clients. -/
def rackBusy : Plugrack :=
  ⟨[⟨"auth/x", "/p", PluginHandle.valid 1, 2⟩], none,
   PLUGRACK_UID_NOBODY, PLUGRACK_PARANOIA_NONE⟩

/-- A rack with one idle loaded entry and one loaded entry in use. -/
def rackMix : Plugrack :=
  ⟨[⟨"a/x", "/a", PluginHandle.valid 1, 0⟩,
    ⟨"b/y", "/b", PluginHandle.valid 2, 3⟩], none,
   PLUGRACK_UID_NOBODY, PLUGRACK_PARANOIA_NONE⟩

/-- A rack whose first entry is loaded and in use and whose second entry
is registered but not loaded. -/
def rackRel : Plugrack :=
  ⟨[⟨"a/x", "/a", PluginHandle.valid 5, 2⟩,
    ⟨"b/y", "/b", PluginHandle.invalid, 0⟩], none,
   PLUGRACK_UID_NOBODY, PLUGRACK_PARANOIA_NONE⟩

/-- A default entry for position lookups with List.getD. -/
def dummyEntry : PlugrackEntry := ⟨"", "", PluginHandle.invalid, 0⟩

/-- The strncmp comparison succeeds exactly on plain string prefixes. -/
theorem strncmp_eq_iff (m t : List Char) :
    strncmp_eq m t = true ↔ ∃ s, t = m ++ s := by
  induction m generalizing t with
  | nil => simp [strncmp_eq]
  | cons a as ih =>
    cases t with
    | nil => simp [strncmp_eq]
    | cons b bs =>
      simp only [strncmp_eq, Bool.and_eq_true, decide_eq_true_eq, ih,
        List.cons_append, List.cons.injEq]
      constructor
      · rintro ⟨h1, s, h2⟩
        exact ⟨s, h1.symm, h2⟩
      · rintro ⟨s, h1, h2⟩
        exact ⟨h1.symm, s, h2⟩

/-- A list never equals itself extended by one element. -/
theorem ne_append_single {α : Type} (l : List α) (a : α) : l ≠ l ++ [a] := by
  intro h
  have hlen := congrArg List.length h
  simp at hlen

/-- The strrchr scan finds nothing when the character does not occur. -/
theorem lastIdxOf_eq_none (c : Char) (l : List Char) (h : c ∉ l) :
    lastIdxOf c l = none := by
  induction l with
  | nil => rfl
  | cons a as ih =>
    have h1 : c ∉ as := fun hm => h (List.mem_cons_of_mem _ hm)
    have h2 : ¬(a = c) := fun he => h (he ▸ List.mem_cons_self a as)
    simp [lastIdxOf, ih h1, h2]

/-- The release scan on a list that splits at the first entry carrying the
handle updates exactly that entry, clamping the decremented refcount. -/
theorem fin_loop_append (plug : PluginHandle) (pre post : List PlugrackEntry)
    (e : PlugrackEntry) (hpre : ∀ x ∈ pre, x.plug ≠ plug) (he : e.plug = plug) :
    fin_loop plug (pre ++ e :: post) =
      some (pre ++ { e with refcount :=
        if e.refcount - 1 < 0 then 0 else e.refcount - 1 } :: post) := by
  induction pre with
  | nil => simp [fin_loop, he]
  | cons x xs ih =>
    have hx : ¬(x.plug = plug) := hpre x (List.mem_cons_self x xs)
    have hxs : ∀ y ∈ xs, y.plug ≠ plug :=
      fun y hy => hpre y (List.mem_cons_of_mem _ hy)
    simp [fin_loop, hx, ih hxs]

/-- The clamped decrement written in the C equals the max form. -/
theorem clamp_eq_max (r : Int) :
    (if r - 1 < 0 then 0 else r - 1) = max (r - 1) 0 := by
  rcases le_or_lt (r - 1) 0 with h | h
  · rcases eq_or_lt_of_le h with h2 | h2
    · simp [h2, le_of_eq h2.symm]
    · simp [h2, le_of_lt h2]
  · have h2 : ¬(r - 1 < 0) := not_lt.mpr (le_of_lt h)
    simp [h2, le_of_lt h]

/-- Claim C1 (falsified on scan_directory): the readdir loop validates the
file-level policy flags against the directory path instead of the
enumerated file, so plugin_peek is invoked on /d/evil.so even though that
file fails the file-level policy. -/
theorem read_dir_peeks_policy_failing_file :
    (plugrack_read_dir fs1 peek1 rack1 "/d" ["evil.so"]).2.2 = ["/d/evil.so"] ∧
    accept_path_paranoia fs1 rack1.uid "/d/evil.so"
      rack1.paranoia.file_own rack1.paranoia.file_writable = false := by
  exact ⟨rfl, rfl⟩

/-- Claim C2 (falsified): acquire on a matching entry returns the loaded
handle without incrementing the refcount when the load succeeds, and
increments the refcount when the load fails. -/
theorem use_by_type_inverted_increment :
    plugrack_use_by_type loadOk rack0 "auth/x" =
      ({ rack0 with entries :=
          [⟨"auth/x", "/lib/a.so", PluginHandle.valid 1, 0⟩] },
       PluginHandle.valid 1) ∧
    plugrack_use_by_type loadFail rack0 "auth/x" =
      ({ rack0 with entries :=
          [⟨"auth/x", "/lib/a.so", PluginHandle.invalid, 1⟩] },
       PluginHandle.invalid) := by
  exact ⟨rfl, rfl⟩

/-- Claim C3 (falsified): registering a file and acquiring it with a
failing loader reaches a state whose single entry has refcount 1 and the
invalid (not loaded) handle. -/
theorem refcount_without_handle_reachable :
    (runOps [Op.register_file fsNone peekA "/lib/a.so",
             Op.use_by_type loadFail "auth/x"]).entries =
      [⟨"auth/x", "/lib/a.so", PluginHandle.invalid, 1⟩] := by
  exact rfl

/-- Claim C7 (falsified): load_all discards the handle returned by the
loader, so a registered entry stays unloaded even though loading its path
succeeds. -/
theorem load_all_discards_handle :
    loadOk "/lib/a.so" = PluginHandle.valid 1 ∧
    (plugrack_load_all loadOk rack0).1.entries =
      [⟨"auth/x", "/lib/a.so", PluginHandle.invalid, 0⟩] := by
  exact ⟨rfl, rfl⟩

/-- Claim C4: a rack holding any entry with a positive refcount cannot be
destroyed; the call reports SLURM_ERROR and returns the rack unchanged. -/
theorem destroy_fails_when_in_use (rack : Plugrack) (e : PlugrackEntry)
    (he : e ∈ rack.entries) (hpos : 0 < e.refcount) :
    plugrack_destroy rack = (rack, false) := by
  unfold plugrack_destroy
  rw [if_pos]
  exact List.any_eq_true.mpr ⟨e, he, by simpa using hpos⟩

/-- Witness for claim C4: destroying the busy rack fails and changes
nothing. -/
theorem destroy_fails_when_in_use_witness :
    plugrack_destroy rackBusy = (rackBusy, false) :=
  destroy_fails_when_in_use rackBusy
    ⟨"auth/x", "/p", PluginHandle.valid 1, 2⟩ (by decide) (by decide)

/-- Claim C10: releasing the invalid-handle sentinel on a rack that has a
not-loaded entry succeeds and applies the clamped decrement to the first
not-loaded entry, because the not-loaded state is stored as the very
sentinel the handle comparison tests. -/
theorem release_invalid_matches_first_unloaded (rack : Plugrack)
    (pre post : List PlugrackEntry) (e : PlugrackEntry)
    (hsplit : rack.entries = pre ++ e :: post)
    (hpre : ∀ x ∈ pre, x.plug ≠ PluginHandle.invalid)
    (he : e.plug = PluginHandle.invalid) :
    plugrack_finished_with_plugin rack PluginHandle.invalid =
      ({ rack with entries :=
          pre ++ { e with refcount := max (e.refcount - 1) 0 } :: post }, true) := by
  unfold plugrack_finished_with_plugin
  rw [hsplit, fin_loop_append PluginHandle.invalid pre post e hpre he,
    clamp_eq_max]

/-- Witness for claim C10: on the rack whose first entry is loaded and
whose second is not loaded, releasing the sentinel succeeds and clamps the
second entry at zero. -/
theorem release_invalid_matches_first_unloaded_witness :
    plugrack_finished_with_plugin rackRel PluginHandle.invalid =
      ({ rackRel with entries :=
          [⟨"a/x", "/a", PluginHandle.valid 5, 2⟩,
           ⟨"b/y", "/b", PluginHandle.invalid, max ((0 : Int) - 1) 0⟩] }, true) :=
  release_invalid_matches_first_unloaded rackRel
    [⟨"a/x", "/a", PluginHandle.valid 5, 2⟩] []
    ⟨"b/y", "/b", PluginHandle.invalid, 0⟩ rfl (by decide) rfl

/-- Claim C6: purge_idle unloads exactly the loaded entries with zero
refcount, resetting their handle, and leaves every other entry -- in
particular every entry in use -- untouched. -/
theorem purge_idle_exact (rack : Plugrack) (i : Nat)
    (h : i < rack.entries.length)
    (h2 : i < (plugrack_purge_idle rack).1.entries.length) :
    ((rack.entries.get ⟨i, h⟩).plug ≠ PluginHandle.invalid ∧
        (rack.entries.get ⟨i, h⟩).refcount = 0 →
      (plugrack_purge_idle rack).1.entries.get ⟨i, h2⟩ =
        { rack.entries.get ⟨i, h⟩ with plug := PluginHandle.invalid })
  ∧ ((rack.entries.get ⟨i, h⟩).refcount ≠ 0 ∨
        (rack.entries.get ⟨i, h⟩).plug = PluginHandle.invalid →
      (plugrack_purge_idle rack).1.entries.get ⟨i, h2⟩ =
        rack.entries.get ⟨i, h⟩) := by
  have hmap : (plugrack_purge_idle rack).1.entries.get ⟨i, h2⟩ =
      purge_entry (rack.entries.get ⟨i, h⟩) := by
    simp [plugrack_purge_idle, List.get_eq_getElem]
  constructor
  · intro hcond
    rw [hmap]
    unfold purge_entry
    rw [if_pos hcond]
  · intro hcond
    rw [hmap]
    unfold purge_entry
    rw [if_neg]
    rcases hcond with hc | hc
    · exact fun hand => hc hand.2
    · exact fun hand => hand.1 hc

/-- Witness for claim C6: on the mixed rack, the idle loaded entry at
index 0 is unloaded and the in-use entry at index 1 is untouched. -/
theorem purge_idle_exact_witness :
    ((plugrack_purge_idle rackMix).1.entries.get ⟨0, by decide⟩ =
      { rackMix.entries.get ⟨0, by decide⟩ with plug := PluginHandle.invalid })
  ∧ ((plugrack_purge_idle rackMix).1.entries.get ⟨1, by decide⟩ =
      rackMix.entries.get ⟨1, by decide⟩) :=
  ⟨(purge_idle_exact rackMix 0 (by decide) (by decide)).1 (by decide),
   (purge_idle_exact rackMix 1 (by decide) (by decide)).2 (by decide)⟩

/-- Counterexample to claim C8: on a node that cannot be statted with both
switches off, the code rejects while the claimed reference definition
(accept unconditionally when both switches are off) accepts. -/
theorem per_node_decision_counterexample :
    accept_path_paranoia fsNone 0 "/x" false false = false ∧
    claimed_path_decision fsNone 0 "/x" false false = true := by
  exact ⟨rfl, rfl⟩

/-- Claim C8 as amended: the stat runs first, so an unstattable node is
rejected even when both switches are off; otherwise the per-node decision
follows the claimed rules, the whole-file check accepts everything when
the paranoia bitmask is empty, and with a nonzero bitmask it rejects any
path containing no slash separator. -/
theorem validator_matches_amended_reference :
    (∀ (fs : Fs) (uid : Nat) (path : String) (own wr : Bool),
      accept_path_paranoia fs uid path own wr =
        amended_path_decision fs uid path own wr)
  ∧ (∀ (fs : Fs) (rack : Plugrack) (path : String),
      rack.paranoia.isZero = true → accept_paranoia fs rack path = true)
  ∧ (∀ (fs : Fs) (rack : Plugrack) (path : String),
      rack.paranoia.isZero = false → '/' ∉ path.data →
      accept_paranoia fs rack path = false) := by
  refine ⟨?_, ?_, ?_⟩
  · intro fs uid path own wr
    unfold accept_path_paranoia amended_path_decision
    cases fs path with
    | none => rfl
    | some st => cases own <;> cases wr <;> simp
  · intro fs rack path hz
    simp [accept_paranoia, hz]
  · intro fs rack path hz hslash
    have hdir : dirOfPath path = none := by
      simp [dirOfPath, lastIdxOf_eq_none '/' path.data hslash]
    unfold accept_paranoia
    rw [hz]
    simp only [Bool.false_eq_true, if_false, hdir]
    split <;> rfl

/-- Witness for the amended claim C8: the per-node equality at a concrete
unstattable node, the trivial accept of the zero-paranoia rack, and the
rejection of a separator-free path under a nonzero bitmask. -/
theorem validator_matches_amended_reference_witness :
    (accept_path_paranoia fsNone 500 "/x" true false =
      amended_path_decision fsNone 500 "/x" true false)
  ∧ accept_paranoia fsNone rack2 "/lib/a.so" = true
  ∧ accept_paranoia fs1 rack1 "noslash" = false :=
  ⟨validator_matches_amended_reference.1 fsNone 500 "/x" true false,
   validator_matches_amended_reference.2.1 fsNone rack2 "/lib/a.so" rfl,
   validator_matches_amended_reference.2.2 fs1 rack1 "noslash" rfl (by decide)⟩

/-- The namespace filter with an unset required namespace accepts. -/
theorem ns_accepts_none (t : String) : ns_accepts none t :=
  Or.inl rfl

/-- The namespace filter with a set required namespace is the plain prefix
condition. -/
theorem ns_accepts_some_iff (m t : String) :
    ns_accepts (some m) t ↔ ∃ s, t.data = m.data ++ s := by
  simp [ns_accepts]

/-- Evaluation of plugrack_add_plugin_file once the paranoia check has
passed and the peek has produced a type string. -/
theorem add_plugin_file_eval (fs : Fs) (peek : Peek) (rack : Plugrack)
    (path t : String) (hacc : accept_paranoia fs rack path = true)
    (hpeek : peek path = some t) :
    plugrack_add_plugin_file fs peek rack path =
      (match rack.major_type with
       | none => ({ rack with entries :=
            rack.entries ++ [⟨t, path, PluginHandle.invalid, 0⟩] },
          true, [path])
       | some m =>
         if strncmp_eq m.data t.data then
           ({ rack with entries :=
               rack.entries ++ [⟨t, path, PluginHandle.invalid, 0⟩] },
            true, [path])
         else (rack, false, [path])) := by
  unfold plugrack_add_plugin_file
  rw [if_neg (by simp [hacc]), hpeek]
  rcases hmaj : rack.major_type with _ | m
  · simp [hmaj, plugrack_add_plugin_path]
  · cases hcmp : strncmp_eq m.data t.data <;>
      simp [hmaj, hcmp, plugrack_add_plugin_path]

/-- Evaluation of one readdir iteration once the stat has succeeded on a
regular file, the (directory-targeted) per-file check has passed and the
peek has produced a type string. -/
theorem read_dir_entry_eval (fs : Fs) (peek : Peek) (rack : Plugrack)
    (dir name : String) (st : StatInfo) (t : String)
    (hst : fs (dir ++ "/" ++ name) = some st) (hreg : st.is_reg = true)
    (hacc : accept_path_paranoia fs rack.uid dir
      rack.paranoia.file_own rack.paranoia.file_writable = true)
    (hpeek : peek (dir ++ "/" ++ name) = some t) :
    read_dir_entry fs peek rack dir name =
      (match rack.major_type with
       | none => ({ rack with entries :=
            rack.entries ++ [⟨t, dir ++ "/" ++ name, PluginHandle.invalid, 0⟩] },
          [dir ++ "/" ++ name])
       | some m =>
         if strncmp_eq m.data t.data then
           ({ rack with entries :=
               rack.entries ++ [⟨t, dir ++ "/" ++ name, PluginHandle.invalid, 0⟩] },
            [dir ++ "/" ++ name])
         else (rack, [dir ++ "/" ++ name])) := by
  unfold read_dir_entry
  rw [hst]
  simp only [hreg, Bool.not_true, Bool.false_eq_true, if_false]
  rw [if_neg (by simp [hacc]), hpeek]
  rcases hmaj : rack.major_type with _ | m
  · simp [hmaj, plugrack_add_plugin_path]
  · cases hcmp : strncmp_eq m.data t.data <;>
      simp [hmaj, hcmp, plugrack_add_plugin_path]

/-- Claim C9: once the security gate and the peek succeed, register_file
and the readdir iteration accept the candidate exactly when the required
namespace is unset or is a plain string prefix of the declared type (no
delimiter required); a rejected type makes register_file fail and makes
the readdir iteration skip the file silently. -/
theorem namespace_plain_prefix_filter :
    (∀ (fs : Fs) (peek : Peek) (rack : Plugrack) (path t : String),
       accept_paranoia fs rack path = true → peek path = some t →
       (plugrack_add_plugin_file fs peek rack path =
          ({ rack with entries :=
              rack.entries ++ [⟨t, path, PluginHandle.invalid, 0⟩] },
           true, [path])
        ↔ ns_accepts rack.major_type t))
  ∧ (∀ (fs : Fs) (peek : Peek) (rack : Plugrack) (path t : String),
       accept_paranoia fs rack path = true → peek path = some t →
       ¬ ns_accepts rack.major_type t →
       plugrack_add_plugin_file fs peek rack path = (rack, false, [path]))
  ∧ (∀ (fs : Fs) (peek : Peek) (rack : Plugrack) (dir name : String)
       (st : StatInfo) (t : String),
       fs (dir ++ "/" ++ name) = some st → st.is_reg = true →
       accept_path_paranoia fs rack.uid dir
         rack.paranoia.file_own rack.paranoia.file_writable = true →
       peek (dir ++ "/" ++ name) = some t →
       (read_dir_entry fs peek rack dir name =
          ({ rack with entries :=
              rack.entries ++ [⟨t, dir ++ "/" ++ name, PluginHandle.invalid, 0⟩] },
           [dir ++ "/" ++ name])
        ↔ ns_accepts rack.major_type t))
  ∧ (∀ (fs : Fs) (peek : Peek) (rack : Plugrack) (dir name : String)
       (st : StatInfo) (t : String),
       fs (dir ++ "/" ++ name) = some st → st.is_reg = true →
       accept_path_paranoia fs rack.uid dir
         rack.paranoia.file_own rack.paranoia.file_writable = true →
       peek (dir ++ "/" ++ name) = some t →
       ¬ ns_accepts rack.major_type t →
       read_dir_entry fs peek rack dir name = (rack, [dir ++ "/" ++ name])) := by
  refine ⟨?_, ?_, ?_, ?_⟩
  · intro fs peek rack path t hacc hpeek
    rw [add_plugin_file_eval fs peek rack path t hacc hpeek]
    rcases hmaj : rack.major_type with _ | m
    · exact iff_of_true rfl (ns_accepts_none t)
    · cases hcmp : strncmp_eq m.data t.data
      · simp only [hcmp, Bool.false_eq_true, if_false]
        refine iff_of_false ?_ ?_
        · intro hEq
          have hb := congrArg (fun x => x.2.1) hEq
          simp at hb
        · intro hns
          obtain ⟨s, hs⟩ := (ns_accepts_some_iff m t).mp hns
          rw [(strncmp_eq_iff m.data t.data).mpr ⟨s, hs⟩] at hcmp
          exact Bool.noConfusion hcmp
      · simp only [hcmp, if_true]
        exact iff_of_true trivial
          ((ns_accepts_some_iff m t).mpr ((strncmp_eq_iff m.data t.data).mp hcmp))
  · intro fs peek rack path t hacc hpeek hns
    rw [add_plugin_file_eval fs peek rack path t hacc hpeek]
    rcases hmaj : rack.major_type with _ | m
    · rw [hmaj] at hns
      exact absurd (ns_accepts_none t) hns
    · rw [hmaj] at hns
      have hcmp : strncmp_eq m.data t.data = false := by
        cases hb : strncmp_eq m.data t.data
        · rfl
        · exact absurd ((ns_accepts_some_iff m t).mpr
            ((strncmp_eq_iff m.data t.data).mp hb)) hns
      simp only [hcmp, Bool.false_eq_true, if_false]
  · intro fs peek rack dir name st t hst hreg hacc hpeek
    rw [read_dir_entry_eval fs peek rack dir name st t hst hreg hacc hpeek]
    rcases hmaj : rack.major_type with _ | m
    · exact iff_of_true rfl (ns_accepts_none t)
    · cases hcmp : strncmp_eq m.data t.data
      · simp only [hcmp, Bool.false_eq_true, if_false]
        refine iff_of_false ?_ ?_
        · intro hEq
          have hb := congrArg (fun x => x.1.entries) hEq
          exact ne_append_single rack.entries _ hb
        · intro hns
          obtain ⟨s, hs⟩ := (ns_accepts_some_iff m t).mp hns
          rw [(strncmp_eq_iff m.data t.data).mpr ⟨s, hs⟩] at hcmp
          exact Bool.noConfusion hcmp
      · simp only [hcmp, if_true]
        exact iff_of_true trivial
          ((ns_accepts_some_iff m t).mpr ((strncmp_eq_iff m.data t.data).mp hcmp))
  · intro fs peek rack dir name st t hst hreg hacc hpeek hns
    rw [read_dir_entry_eval fs peek rack dir name st t hst hreg hacc hpeek]
    rcases hmaj : rack.major_type with _ | m
    · rw [hmaj] at hns
      exact absurd (ns_accepts_none t) hns
    · rw [hmaj] at hns
      have hcmp : strncmp_eq m.data t.data = false := by
        cases hb : strncmp_eq m.data t.data
        · rfl
        · exact absurd ((ns_accepts_some_iff m t).mpr
            ((strncmp_eq_iff m.data t.data).mp hb)) hns
      simp only [hcmp, Bool.false_eq_true, if_false]

/-- Witness for claim C9: with required namespace auth and no paranoia,
register_file accepts the module at /p/a.so that declares the
delimiterless type authxyz. -/
theorem namespace_plain_prefix_filter_witness :
    plugrack_add_plugin_file fsNone peek2 rack2 "/p/a.so" =
      ({ rack2 with entries :=
          rack2.entries ++ [⟨"authxyz", "/p/a.so", PluginHandle.invalid, 0⟩] },
       true, ["/p/a.so"]) :=
  (namespace_plain_prefix_filter.1 fsNone peek2 rack2 "/p/a.so" "authxyz"
      rfl rfl).mpr
    (Or.inr ⟨"auth", ['x', 'y', 'z'], rfl, by decide⟩)

/-- register_file only ever appends entries, each with zero refcount. -/
theorem add_plugin_file_suffix (fs : Fs) (peek : Peek) (rack : Plugrack)
    (p : String) :
    ∃ suf, (plugrack_add_plugin_file fs peek rack p).1.entries =
      rack.entries ++ suf ∧ ∀ x ∈ suf, x.refcount = 0 := by
  unfold plugrack_add_plugin_file
  split
  · exact ⟨[], by simp, by simp⟩
  · split
    · exact ⟨[], by simp, by simp⟩
    · rename_i t ht
      split
      · rename_i m hm
        split
        · exact ⟨[], by simp, by simp⟩
        · exact ⟨[⟨t, p, PluginHandle.invalid, 0⟩],
            by simp [plugrack_add_plugin_path],
            by intro x hx; simp at hx; rw [hx]⟩
      · exact ⟨[⟨t, p, PluginHandle.invalid, 0⟩],
          by simp [plugrack_add_plugin_path],
          by intro x hx; simp at hx; rw [hx]⟩

/-- One readdir iteration only ever appends entries, each with zero
refcount. -/
theorem read_dir_entry_suffix (fs : Fs) (peek : Peek) (rack : Plugrack)
    (dir name : String) :
    ∃ suf, (read_dir_entry fs peek rack dir name).1.entries =
      rack.entries ++ suf ∧ ∀ x ∈ suf, x.refcount = 0 := by
  unfold read_dir_entry
  split
  · exact ⟨[], by simp, by simp⟩
  · split
    · exact ⟨[], by simp, by simp⟩
    · split
      · exact ⟨[], by simp, by simp⟩
      · split
        · exact ⟨[], by simp, by simp⟩
        · rename_i t ht
          split
          · rename_i m hm
            split
            · exact ⟨[], by simp, by simp⟩
            · exact ⟨[⟨t, dir ++ "/" ++ name, PluginHandle.invalid, 0⟩],
                by simp [plugrack_add_plugin_path],
                by intro x hx; simp at hx; rw [hx]⟩
          · exact ⟨[⟨t, dir ++ "/" ++ name, PluginHandle.invalid, 0⟩],
              by simp [plugrack_add_plugin_path],
              by intro x hx; simp at hx; rw [hx]⟩

/-- The readdir loop only ever appends entries, each with zero refcount. -/
theorem read_dir_loop_suffix (fs : Fs) (peek : Peek) (dir : String) :
    ∀ (names : List String) (rack : Plugrack),
    ∃ suf, (plugrack_read_dir_loop fs peek dir names rack).1.entries =
      rack.entries ++ suf ∧ ∀ x ∈ suf, x.refcount = 0 := by
  intro names
  induction names with
  | nil =>
    intro rack
    exact ⟨[], by simp [plugrack_read_dir_loop], by simp⟩
  | cons n ns ih =>
    intro rack
    obtain ⟨s1, h1, h1z⟩ := read_dir_entry_suffix fs peek rack dir n
    obtain ⟨s2, h2, h2z⟩ := ih (read_dir_entry fs peek rack dir n).1
    refine ⟨s1 ++ s2, ?_, ?_⟩
    · show (plugrack_read_dir_loop fs peek dir ns
        (read_dir_entry fs peek rack dir n).1).1.entries = _
      rw [h2, h1, List.append_assoc]
    · intro x hx
      rcases List.mem_append.mp hx with hx | hx
      · exact h1z x hx
      · exact h2z x hx

/-- scan_directory only ever appends entries, each with zero refcount. -/
theorem read_dir_suffix (fs : Fs) (peek : Peek) (rack : Plugrack)
    (dir : String) (names : List String) :
    ∃ suf, (plugrack_read_dir fs peek rack dir names).1.entries =
      rack.entries ++ suf ∧ ∀ x ∈ suf, x.refcount = 0 := by
  unfold plugrack_read_dir
  split
  · exact ⟨[], by simp, by simp⟩
  · exact read_dir_loop_suffix fs peek dir names rack

/-- Any entry present after register_file was present before or is fresh
with zero refcount. -/
theorem mem_add_plugin_file (fs : Fs) (peek : Peek) (rack : Plugrack)
    (p : String) (e : PlugrackEntry)
    (he : e ∈ (plugrack_add_plugin_file fs peek rack p).1.entries) :
    e ∈ rack.entries ∨ e.refcount = 0 := by
  obtain ⟨suf, hs, hz⟩ := add_plugin_file_suffix fs peek rack p
  rw [hs] at he
  rcases List.mem_append.mp he with h | h
  · exact Or.inl h
  · exact Or.inr (hz e h)

/-- Any entry present after scan_directory was present before or is fresh
with zero refcount. -/
theorem mem_read_dir (fs : Fs) (peek : Peek) (rack : Plugrack)
    (dir : String) (names : List String) (e : PlugrackEntry)
    (he : e ∈ (plugrack_read_dir fs peek rack dir names).1.entries) :
    e ∈ rack.entries ∨ e.refcount = 0 := by
  obtain ⟨suf, hs, hz⟩ := read_dir_suffix fs peek rack dir names
  rw [hs] at he
  rcases List.mem_append.mp he with h | h
  · exact Or.inl h
  · exact Or.inr (hz e h)

/-- The load step of acquire leaves the refcount alone. -/
theorem use_update_refcount (load : Loader) (e : PlugrackEntry) :
    (use_update load e).refcount = e.refcount := by
  unfold use_update
  split <;> rfl

/-- The increment step of acquire never lowers the refcount. -/
theorem use_bump_refcount_le (e : PlugrackEntry) :
    e.refcount ≤ (use_bump e).refcount := by
  unfold use_bump
  split
  · show e.refcount ≤ e.refcount + 1
    omega
  · exact le_refl _

/-- The acquire scan keeps the number of entries. -/
theorem use_loop_length (load : Loader) (t : String) :
    ∀ es : List PlugrackEntry, (use_loop load t es).1.length = es.length := by
  intro es
  induction es with
  | nil => rfl
  | cons e es ih =>
    unfold use_loop
    split
    · simp
    · simp [ih]

/-- The acquire scan never lowers any refcount, position by position. -/
theorem use_loop_getD_le (load : Loader) (t : String) (d : PlugrackEntry) :
    ∀ (es : List PlugrackEntry) (i : Nat), i < es.length →
    (es.getD i d).refcount ≤ ((use_loop load t es).1.getD i d).refcount := by
  intro es
  induction es with
  | nil =>
    intro i h
    simp at h
  | cons e es ih =>
    intro i h
    by_cases hft : e.full_type = t
    · simp only [use_loop, if_pos hft]
      cases i with
      | zero =>
        simp only [List.getD_cons_zero]
        calc e.refcount = (use_update load e).refcount :=
              (use_update_refcount load e).symm
          _ ≤ (use_bump (use_update load e)).refcount :=
              use_bump_refcount_le _
      | succ j => simp only [List.getD_cons_succ]; exact le_refl _
    · simp only [use_loop, if_neg hft]
      cases i with
      | zero => simp only [List.getD_cons_zero]; exact le_refl _
      | succ j =>
        simp only [List.getD_cons_succ]
        exact ih j (Nat.lt_of_succ_lt_succ h)

/-- The acquire scan keeps refcounts non-negative. -/
theorem use_loop_nonneg (load : Loader) (t : String) :
    ∀ es : List PlugrackEntry, (∀ x ∈ es, 0 ≤ x.refcount) →
    ∀ x ∈ (use_loop load t es).1, 0 ≤ x.refcount := by
  intro es
  induction es with
  | nil =>
    intro _ x hx
    exact absurd hx (List.not_mem_nil x)
  | cons e es ih =>
    intro hnn x hx
    by_cases hft : e.full_type = t
    · simp only [use_loop, if_pos hft] at hx
      rcases List.mem_cons.mp hx with hx | hx
      · subst hx
        have h0 : 0 ≤ e.refcount := hnn e (List.mem_cons_self e es)
        unfold use_bump
        split
        · show 0 ≤ (use_update load e).refcount + 1
          rw [use_update_refcount]
          omega
        · rw [use_update_refcount]
          exact h0
      · exact hnn x (List.mem_cons_of_mem e hx)
    · simp only [use_loop, if_neg hft] at hx
      rcases List.mem_cons.mp hx with hx | hx
      · subst hx
        exact hnn x (List.mem_cons_self x es)
      · exact ih (fun y hy => hnn y (List.mem_cons_of_mem e hy)) x hx

/-- The release scan keeps refcounts non-negative: the clamp makes the
touched entry non-negative outright. -/
theorem fin_loop_nonneg (plug : PluginHandle) :
    ∀ es es2 : List PlugrackEntry, fin_loop plug es = some es2 →
    (∀ x ∈ es, 0 ≤ x.refcount) → ∀ x ∈ es2, 0 ≤ x.refcount := by
  intro es
  induction es with
  | nil =>
    intro es2 h
    exact absurd h (by simp [fin_loop])
  | cons e es ih =>
    intro es2 h hnn x hx
    unfold fin_loop at h
    split at h
    · injection h with h
      subst h
      rcases List.mem_cons.mp hx with hx | hx
      · subst hx
        show 0 ≤ if e.refcount - 1 < 0 then 0 else e.refcount - 1
        split <;> omega
      · exact hnn x (List.mem_cons_of_mem e hx)
    · cases hf : fin_loop plug es with
      | none =>
        rw [hf] at h
        exact absurd h (by simp)
      | some es3 =>
        rw [hf] at h
        simp at h
        subst h
        rcases List.mem_cons.mp hx with hx | hx
        · subst hx
          exact hnn x (List.mem_cons_self x es)
        · exact ih es3 hf (fun y hy => hnn y (List.mem_cons_of_mem e hy)) x hx

/-- The purge step keeps the refcount. -/
theorem purge_entry_refcount (e : PlugrackEntry) :
    (purge_entry e).refcount = e.refcount := by
  unfold purge_entry
  split <;> rfl

/-- The load_all step leaves the entry unchanged (the loaded handle is
discarded). -/
theorem load_all_entry_eq (load : Loader) (e : PlugrackEntry) :
    load_all_entry load e = e := by
  unfold load_all_entry
  split <;> rfl

/-- Positions inside the left part of an append read from the left part. -/
theorem getD_append_left_entries (l1 l2 : List PlugrackEntry) :
    ∀ (i : Nat), i < l1.length → ∀ d : PlugrackEntry,
    (l1 ++ l2).getD i d = l1.getD i d := by
  induction l1 with
  | nil =>
    intro i h
    simp at h
  | cons a as ih =>
    intro i h d
    cases i with
    | zero => rfl
    | succ j =>
      simp only [List.cons_append, List.getD_cons_succ]
      exact ih j (Nat.lt_of_succ_lt_succ h) d

/-- A map whose step keeps the refcount keeps it position by position. -/
theorem map_getD_refcount_eq (f : PlugrackEntry → PlugrackEntry)
    (hf : ∀ e, (f e).refcount = e.refcount) :
    ∀ (l : List PlugrackEntry) (i : Nat), i < l.length →
    ∀ d : PlugrackEntry, ((l.map f).getD i d).refcount = (l.getD i d).refcount := by
  intro l
  induction l with
  | nil =>
    intro i h
    simp at h
  | cons a as ih =>
    intro i h d
    cases i with
    | zero => simp [hf]
    | succ j =>
      simp only [List.map_cons, List.getD_cons_succ]
      exact ih j (Nat.lt_of_succ_lt_succ h) d

/-- Every public operation keeps all refcounts non-negative. -/
theorem applyOp_nonneg (rack : Plugrack) (op : Op)
    (h : ∀ e ∈ rack.entries, 0 ≤ e.refcount) :
    ∀ e ∈ (applyOp rack op).entries, 0 ≤ e.refcount := by
  cases op with
  | register_file fs peek p =>
    intro e he
    rcases mem_add_plugin_file fs peek rack p e he with h1 | h1
    · exact h e h1
    · exact le_of_eq h1.symm
  | read_dir fs peek d names =>
    intro e he
    rcases mem_read_dir fs peek rack d names e he with h1 | h1
    · exact h e h1
    · exact le_of_eq h1.symm
  | use_by_type load t =>
    intro e he
    exact use_loop_nonneg load t rack.entries h e he
  | finished plug =>
    intro e he
    dsimp only [applyOp, plugrack_finished_with_plugin] at he
    cases hf : fin_loop plug rack.entries with
    | none =>
      rw [hf] at he
      exact h e he
    | some es2 =>
      rw [hf] at he
      exact fin_loop_nonneg plug rack.entries es2 hf h e he
  | purge_idle =>
    intro e he
    simp only [applyOp, plugrack_purge_idle, List.mem_map] at he
    obtain ⟨y, hy, hye⟩ := he
    rw [← hye, purge_entry_refcount]
    exact h y hy
  | load_all load =>
    intro e he
    simp only [applyOp, plugrack_load_all, List.mem_map] at he
    obtain ⟨y, hy, hye⟩ := he
    rw [← hye, load_all_entry_eq]
    exact h y hy
  | set_major_type t =>
    intro e he
    exact h e he
  | set_paranoia flags uid =>
    intro e he
    exact h e he
  | destroy =>
    intro e he
    dsimp only [applyOp, plugrack_destroy] at he
    split at he
    · exact h e he
    · exact absurd he (List.not_mem_nil e)

/-- Refcounts stay non-negative along any run of public operations. -/
theorem foldl_nonneg :
    ∀ (ops : List Op) (rack : Plugrack),
    (∀ e ∈ rack.entries, 0 ≤ e.refcount) →
    ∀ e ∈ (ops.foldl applyOp rack).entries, 0 ≤ e.refcount := by
  intro ops
  induction ops with
  | nil =>
    intro rack h
    exact h
  | cons op ops ih =>
    intro rack h
    exact ih (applyOp rack op) (applyOp_nonneg rack op h)

/-- No public operation other than release ever lowers the refcount of an
entry that survives at its position. -/
theorem applyOp_no_decrease (rack : Plugrack) (op : Op)
    (hop : ∀ p, op ≠ Op.finished p) (i : Nat)
    (h : i < rack.entries.length)
    (h2 : i < (applyOp rack op).entries.length) :
    (rack.entries.getD i dummyEntry).refcount ≤
      ((applyOp rack op).entries.getD i dummyEntry).refcount := by
  cases op with
  | register_file fs peek p =>
    obtain ⟨suf, hs, _⟩ := add_plugin_file_suffix fs peek rack p
    have hent : (applyOp rack (Op.register_file fs peek p)).entries =
        rack.entries ++ suf := hs
    rw [hent, getD_append_left_entries rack.entries suf i h dummyEntry]
  | read_dir fs peek d names =>
    obtain ⟨suf, hs, _⟩ := read_dir_suffix fs peek rack d names
    have hent : (applyOp rack (Op.read_dir fs peek d names)).entries =
        rack.entries ++ suf := hs
    rw [hent, getD_append_left_entries rack.entries suf i h dummyEntry]
  | use_by_type load t =>
    exact use_loop_getD_le load t dummyEntry rack.entries i h
  | finished plug =>
    exact absurd rfl (hop plug)
  | purge_idle =>
    have hent : (applyOp rack Op.purge_idle).entries =
        rack.entries.map purge_entry := rfl
    rw [hent,
      map_getD_refcount_eq purge_entry purge_entry_refcount
        rack.entries i h dummyEntry]
  | load_all load =>
    have hent : (applyOp rack (Op.load_all load)).entries =
        rack.entries.map (load_all_entry load) := rfl
    rw [hent,
      map_getD_refcount_eq (load_all_entry load)
        (fun e => by rw [load_all_entry_eq]) rack.entries i h dummyEntry]
  | set_major_type t =>
    exact le_refl _
  | set_paranoia flags uid =>
    exact le_refl _
  | destroy =>
    cases hb : rack.entries.any (fun e => decide (0 < e.refcount)) with
    | false =>
      have hent : (applyOp rack Op.destroy).entries = [] := by
        simp only [applyOp, plugrack_destroy, hb]
        rfl
      rw [hent] at h2
      exact absurd h2 (by simp)
    | true =>
      have hent : (applyOp rack Op.destroy).entries = rack.entries := by
        simp only [applyOp, plugrack_destroy, hb]
        rfl
      rw [hent]

/-- Claim C5: every reachable registry state has only non-negative
refcounts; the release of a handle that matches an entry applies exactly
the clamped decrement to the first matching entry; and no operation other
than release lowers the refcount of a surviving entry. -/
theorem use_count_never_negative :
    (∀ ops : List Op, ∀ e ∈ (runOps ops).entries, 0 ≤ e.refcount)
  ∧ (∀ (rack : Plugrack) (pre post : List PlugrackEntry) (e : PlugrackEntry),
      rack.entries = pre ++ e :: post → (∀ x ∈ pre, x.plug ≠ e.plug) →
      plugrack_finished_with_plugin rack e.plug =
        ({ rack with entries :=
            pre ++ { e with refcount := max (e.refcount - 1) 0 } :: post },
         true))
  ∧ (∀ (rack : Plugrack) (op : Op), (∀ p, op ≠ Op.finished p) →
      ∀ i : Nat, i < rack.entries.length →
      i < (applyOp rack op).entries.length →
      (rack.entries.getD i dummyEntry).refcount ≤
        ((applyOp rack op).entries.getD i dummyEntry).refcount) := by
  refine ⟨?_, ?_, ?_⟩
  · intro ops
    exact foldl_nonneg ops plugrack_create
      (fun e he => absurd he (List.not_mem_nil e))
  · intro rack pre post e hsplit hpre
    unfold plugrack_finished_with_plugin
    rw [hsplit, fin_loop_append e.plug pre post e hpre rfl, clamp_eq_max]
  · intro rack op hop i h h2
    exact applyOp_no_decrease rack op hop i h h2

/-- Witness for claim C5: the reachable entry of the two-step run has a
non-negative refcount; releasing the loaded handle of the busy rack clamps
its refcount from 2 to 1; purging the mixed rack does not lower the
refcount of the entry in use. -/
theorem use_count_never_negative_witness :
    (0 ≤ (⟨"auth/x", "/lib/a.so", PluginHandle.invalid, 1⟩ : PlugrackEntry).refcount)
  ∧ plugrack_finished_with_plugin rackBusy (PluginHandle.valid 1) =
      ({ rackBusy with entries :=
          [⟨"auth/x", "/p", PluginHandle.valid 1, max ((2 : Int) - 1) 0⟩] }, true)
  ∧ (rackMix.entries.getD 1 dummyEntry).refcount ≤
      ((applyOp rackMix Op.purge_idle).entries.getD 1 dummyEntry).refcount :=
  ⟨use_count_never_negative.1
      [Op.register_file fsNone peekA "/lib/a.so",
       Op.use_by_type loadFail "auth/x"]
      ⟨"auth/x", "/lib/a.so", PluginHandle.invalid, 1⟩ (by decide),
   use_count_never_negative.2.1 rackBusy []
      [] ⟨"auth/x", "/p", PluginHandle.valid 1, 2⟩ rfl
      (fun x hx => absurd hx (List.not_mem_nil x)),
   use_count_never_negative.2.2 rackMix Op.purge_idle
      (fun p hp => Op.noConfusion hp) 1 (by decide) (by decide)⟩
